import Mathlib

/-!
Shallow embedding of Tone.Part (src/Tone/event/Part.js): a group of
scheduled events that can be started, stopped and looped as a unit.
Time expressions are modelled directly as tick counts (the source routes
every time argument through toTicks; the conversion service itself is
out of scope per the spec), so an Int in this file is always a tick
count.  The collaborators Tone.TimelineState and Tone.Event are not part
of the provided source; they are modelled from the spec (sections 3,
4.1, 4.2) and each such definition says so in its doc comment.
-/

namespace Tone

/-- Playback state of the container or of a single event
(Tone.State.Started / Tone.State.Stopped). -/
inductive PState where
  | Started
  | Stopped
deriving DecidableEq, Repr

/-- Modelled from the spec: a Timeline record
`\x7btick, state, offset\x7d` (spec section 3); `offset` is the playback
offset captured when a Started record is created. -/
structure StateRecord where
  time : Int
  state : PState
  offset : Int
deriving DecidableEq, Repr

/-- Modelled from the spec: Tone.TimelineState.addEvent inserts a record
keeping the sequence ordered by tick; at an equal tick the new record is
placed after the existing ones, so the latest write at a tick wins in
lookups (spec section 4.1). -/
def addEvent (tl : List StateRecord) (r : StateRecord) : List StateRecord :=
  match tl with
  | [] => [r]
  | x :: xs => if x.time ≤ r.time then x :: addEvent xs r else r :: x :: xs

/-- Modelled from the spec: Tone.TimelineState.getEvent returns the last
record whose tick is at most the query tick, none if every record is
later or the log is empty (spec section 4.1). -/
def getEvent (tl : List StateRecord) (t : Int) : Option StateRecord :=
  match tl with
  | [] => none
  | x :: xs => if x.time ≤ t then some ((getEvent xs t).getD x) else none

/-- Modelled from the spec: Tone.TimelineState.getStateAtTime returns the
state of the last record with tick at most the query tick, Stopped if
there is none (spec sections 3 and 4.1). -/
def getStateAtTime (tl : List StateRecord) (t : Int) : PState :=
  match getEvent tl t with
  | some r => r.state
  | none => PState.Stopped

/-- Modelled from the spec: Tone.TimelineState.setStateAtTime records a
bare state change at a tick (spec section 4.1); the offset field of such
a record is never read back. -/
def setStateAtTime (tl : List StateRecord) (s : PState) (t : Int) : List StateRecord :=
  addEvent tl { time := t, state := s, offset := 0 }

/-- Modelled from the spec: Tone.TimelineState.cancel removes every
future record from the state log, never one at or before a strictly
earlier tick (spec section 4.1). -/
def cancelTL (tl : List StateRecord) (after : Int) : List StateRecord :=
  tl.filter (fun r => decide (r.time < after))

/-- Loop setting of the part or of an event: a Boolean or a positive
iteration count (the source only ever tests it for truthiness). -/
inductive LoopSetting where
  | bool (b : Bool)
  | count (n : Nat)
deriving DecidableEq, Repr

/-- Truthiness of a Boolean-or-number loop setting, as used by the
source's `if (this._loop)` tests. -/
def LoopSetting.truthy : LoopSetting → Bool
  | .bool b => b
  | .count n => n != 0

/-- Humanize setting: a Boolean or a jitter magnitude in ticks. -/
inductive HumVal where
  | bool (b : Bool)
  | time (t : Int)
deriving DecidableEq, Repr

/-- Modelled from the spec: a Tone.Event (spec section 4.2), the leaf
schedulable unit.  `scheduled` is the pending trigger registered with
the external clock: `some (tick, offset)` after `start(tick, offset)`,
none when no trigger is pending; the external clock only ever invokes
triggers that are pending. -/
structure SEvent (V : Type) where
  value : V
  startOffset : Int
  loop : LoopSetting
  loopStart : Int
  loopEnd : Int
  probability : Rat
  humanize : HumVal
  playbackRate : Rat
  state : PState
  scheduled : Option (Int × Int)
deriving DecidableEq, Repr

/-- Modelled from the spec: Tone.Event.start schedules the event's
trigger at the given tick with the given loop-local offset (spec
section 4.2). -/
def SEvent.start (e : SEvent V) (tick off : Int) : SEvent V :=
  { e with state := PState.Started, scheduled := some (tick, off) }

/-- Modelled from the spec: Tone.Event.stop mirrors Timeline semantics
at the single-event level; the pending trigger will no longer fire
(spec section 4.2). -/
def SEvent.stop (e : SEvent V) (_t : Int) : SEvent V :=
  { e with state := PState.Stopped, scheduled := none }

/-- Modelled from the spec: Tone.Event.cancel with no argument removes
the event's pending trigger, leaving it unscheduled (spec sections 4.2
and 4.3, property-propagation paragraph). -/
def SEvent.cancel (e : SEvent V) : SEvent V :=
  { e with state := PState.Stopped, scheduled := none }

/-- Modelled from the spec: Tone.Event.cancel(after) removes only a
future pending trigger, never one scheduled strictly before the bound
(spec section 4.2). -/
def SEvent.cancelAfter (e : SEvent V) (after : Int) : SEvent V :=
  match e.scheduled with
  | some pr => if after ≤ pr.1 then { e with state := PState.Stopped, scheduled := none } else e
  | none => e

/-- Modelled from the spec: a freshly constructed Tone.Event wrapping a
raw value, before Part.add copies the group settings onto it (spec
sections 4.2 and 4.3: children inherit the group's settings at
insertion, so only `loopStart`, `state` and the empty schedule of these
defaults survive the add). -/
def SEvent.fresh (v : V) : SEvent V :=
  { value := v, startOffset := 0, loop := LoopSetting.bool false,
    loopStart := 0, loopEnd := 0, probability := 1,
    humanize := HumVal.bool false, playbackRate := 1,
    state := PState.Stopped, scheduled := none }

/-- Tone.Part, from the source constructor: loop flag, loop window in
ticks, playback rate, probability, humanize, cumulative start offset,
the TimelineState `_state`, the child list `_events` and the mute flag.
The user callback itself is not stored; the dispatch routine `_tick`
instead returns the argument pair the callback would receive. -/
structure Part (V : Type) where
  _loop : LoopSetting
  _loopStart : Int
  _loopEnd : Int
  _playbackRate : Rat
  _probability : Rat
  _humanize : HumVal
  _startOffset : Int
  _state : List StateRecord
  _events : List (SEvent V)
  mute : Bool
deriving DecidableEq, Repr

/-- Tone.Part.prototype._startNote (source lines 170-181): when looping,
an event is started only if its offset relative to the group's
startOffset lies in the loop window; otherwise it is started at
`ticks + offset` unconditionally.  The non-loop `event.start` call
passes no offset, which the leaf defaults to 0. -/
def Part._startNote (g : Part V) (e : SEvent V) (ticks off : Int) : SEvent V :=
  let startTick := ticks + off
  if g._loop.truthy then
    let eventStartOffset := e.startOffset - g._startOffset
    if g._loopStart ≤ eventStartOffset ∧ eventStartOffset < g._loopEnd then
      e.start startTick g._startOffset
    else
      e
  else
    e.start startTick 0

/-- Tone.Part.prototype.start (source lines 145-160): if the state at
the tick is not already Started, record a Started event carrying the
offset and position every child. -/
def Part.start (g : Part V) (time off : Int) : Part V :=
  if getStateAtTime g._state time = PState.Started then g
  else
    { g with
      _state := addEvent g._state { time := time, state := PState.Started, offset := off },
      _events := g._events.map (fun e => g._startNote e time off) }

/-- Tone.Part.prototype.stop (source lines 207-216): if the state at the
tick is Started, record Stopped and stop every child. -/
def Part.stop (g : Part V) (time : Int) : Part V :=
  if getStateAtTime g._state time = PState.Started then
    { g with
      _state := setStateAtTime g._state PState.Stopped time,
      _events := g._events.map (fun e => e.stop time) }
  else g

/-- Tone.Part startOffset setter (source lines 190-200): stores the
assigned value and adds that same value to every child's startOffset. -/
def Part.setStartOffset (g : Part V) (off : Int) : Part V :=
  { g with
    _startOffset := off,
    _events := g._events.map (fun e => { e with startOffset := e.startOffset + off }) }

/-- Tone.Part.prototype._restartEvent (source lines 304-309): look up
the state record governing the current time; if it exists and is a
Started record, run the positioning algorithm for the event with the
tick and offset recorded there, otherwise leave the event alone. -/
def Part._restartEvent (g : Part V) (now : Int) (e : SEvent V) : SEvent V :=
  match getEvent g._state now with
  | some r => if r.state = PState.Started then g._startNote e r.time r.offset else e
  | none => e

/-- Value argument accepted by Part.add: either a raw value to wrap in a
fresh event, or an existing Tone.Event instance (source lines 271-279;
the spec's tagged variant, section 9). -/
inductive AddValue (V : Type) where
  | raw (v : V)
  | event (e : SEvent V)
deriving DecidableEq, Repr

/-- Child produced by Tone.Part.prototype.add before any immediate
restart (source lines 270-290): an existing event is reused, a raw
value is wrapped in a fresh event; then startOffset is set to the given
tick and the group's window length, loop, humanize, playbackRate and
probability are copied onto the child. -/
def Part.makeChild (g : Part V) (time : Int) (av : AddValue V) : SEvent V :=
  let e := match av with
    | AddValue.raw v => SEvent.fresh v
    | AddValue.event ev => ev
  { e with
    startOffset := time,
    loopEnd := g._loopEnd - g._loopStart,
    loop := g._loop,
    humanize := g._humanize,
    playbackRate := g._playbackRate,
    probability := g._probability }

/-- Tone.Part.prototype.add (source lines 262-297), after input
normalization: build the configured child, append it to the event list
and restart it so it is scheduled immediately when the group's timeline
reports Started at the current time. -/
def Part.add (g : Part V) (now time : Int) (av : AddValue V) : Part V :=
  let e := g.makeChild time av
  let e2 := g._restartEvent now e
  { g with _events := g._events ++ [e2] }

/-- Splice loop of Tone.Part.prototype._forEach combined with the
removal callback of remove (source lines 321-328 and 362-367): visit
indices of the evolving list from high to low; a matching element is
spliced out at its index and disposed before the loop continues at the
next lower index.  The second component collects the disposed elements
in visit order. -/
def spliceLoop (p : SEvent V → Bool) : List (SEvent V) → Nat → List (SEvent V) × List (SEvent V)
  | es, 0 => (es, [])
  | es, i + 1 =>
    match es.get? i with
    | some e =>
      if p e then
        let pr := spliceLoop p (es.eraseIdx i) i
        (pr.1, e :: pr.2)
      else spliceLoop p es i
    | none => spliceLoop p es i

/-- Match test used by Tone.Part.prototype.remove (source lines
322-323): same startOffset, and when a value is supplied, the same
value. -/
def removeMatches [DecidableEq V] (time : Int) (v? : Option V) (e : SEvent V) : Bool :=
  decide (e.startOffset = time) &&
    (match v? with
     | none => true
     | some v => decide (e.value = v))

/-- Tone.Part.prototype.remove (source lines 314-330), after input
normalization: splice out and dispose, during a reverse iteration,
every child whose startOffset equals the tick and whose value matches.
The first component is the group after removal; the second lists the
children on which dispose was called, in disposal order. -/
def Part.remove [DecidableEq V] (g : Part V) (time : Int) (v? : Option V) :
    Part V × List (SEvent V) :=
  let pr := spliceLoop (removeMatches time v?) g._events g._events.length
  ({ g with _events := pr.1 }, pr.2)

/-- Tone.Part.prototype.removeAll (source lines 336-342): dispose every
child and empty the event list. -/
def Part.removeAll (g : Part V) : Part V :=
  { g with _events := [] }

/-- Tone.Part.prototype.cancel (source lines 349-355): cancel the
future-scheduled triggers of every child and truncate the group's own
state log. -/
def Part.cancel (g : Part V) (after : Int) : Part V :=
  { g with
    _events := g._events.map (fun e => e.cancelAfter after),
    _state := cancelTL g._state after }

/-- Tone.Part.prototype._testLoopBoundries (source lines 398-408): a
child outside the loop window is canceled; one inside the window that
is currently Stopped is restarted. -/
def Part._testLoopBoundries (g : Part V) (now : Int) (e : SEvent V) : SEvent V :=
  let eventStartOffset := e.startOffset - g._startOffset
  if eventStartOffset < g._loopStart ∨ g._loopEnd ≤ eventStartOffset then
    e.cancel
  else if e.state = PState.Stopped then
    g._restartEvent now e
  else e

/-- Tone.Part probability setter (source lines 416-424): store the value
and fan it out to every child. -/
def Part.setProbability (g : Part V) (p : Rat) : Part V :=
  { g with
    _probability := p,
    _events := g._events.map (fun e => { e with probability := p }) }

/-- Tone.Part humanize setter (source lines 433-441): store the value
and fan it out to every child. -/
def Part.setHumanize (g : Part V) (h : HumVal) : Part V :=
  { g with
    _humanize := h,
    _events := g._events.map (fun e => { e with humanize := h }) }

/-- Tone.Part playbackRate setter (source lines 518-526): store the
value and fan it out to every child. -/
def Part.setPlaybackRate (g : Part V) (r : Rat) : Part V :=
  { g with
    _playbackRate := r,
    _events := g._events.map (fun e => { e with playbackRate := r }) }

/-- Per-child update of the Tone.Part loop setter (source lines
459-463) before the boundary retest: the child's own window becomes
`[0, loopEnd - loopStart)` and it receives the new loop value. -/
def Part.loopFanChild (g : Part V) (e : SEvent V) : SEvent V :=
  { e with loopStart := 0, loopEnd := g._loopEnd - g._loopStart, loop := g._loop }

/-- Tone.Part loop setter (source lines 453-466): store the value, then
for every child update its window and loop value and retest the loop
boundaries. -/
def Part.setLoop (g : Part V) (now : Int) (l : LoopSetting) : Part V :=
  let g2 := { g with _loop := l }
  { g2 with _events := g2._events.map (fun e => g2._testLoopBoundries now (g2.loopFanChild e)) }

/-- Per-child update of the Tone.Part loopStart and loopEnd setters
(source lines 483 and 505) before the boundary retest: the child's
loopEnd becomes the group's window length. -/
def Part.windowFanChild (g : Part V) (e : SEvent V) : SEvent V :=
  { e with loopEnd := g._loopEnd - g._loopStart }

/-- Tone.Part loopEnd setter (source lines 475-488): store the value;
only when the group is looping, fan the window length out to every
child and retest the loop boundaries. -/
def Part.setLoopEnd (g : Part V) (now x : Int) : Part V :=
  let g2 := { g with _loopEnd := x }
  if g2._loop.truthy then
    { g2 with _events := g2._events.map (fun e => g2._testLoopBoundries now (g2.windowFanChild e)) }
  else g2

/-- Tone.Part loopStart setter (source lines 497-510): store the value;
only when the group is looping, fan the window length out to every
child and retest the loop boundaries. -/
def Part.setLoopStart (g : Part V) (now x : Int) : Part V :=
  let g2 := { g with _loopStart := x }
  if g2._loop.truthy then
    { g2 with _events := g2._events.map (fun e => g2._testLoopBoundries now (g2.windowFanChild e)) }
  else g2

/-- Tone.Part length getter (source lines 535-539): the number of
children. -/
def Part.length (g : Part V) : Nat :=
  g._events.length

/-- Tone.Part.prototype._tick (source lines 386-390): the internal
dispatch invoked by a child's trigger.  Returns the `(time, value)`
pair passed to the user callback, or none when the callback is not
invoked: it fires only when mute is false and the state at the external
clock's current tick is Started. -/
def Part._tick (g : Part V) (transportTicks : Int) (time : Int) (v : V) : Option (Int × V) :=
  if g.mute = false ∧ getStateAtTime g._state transportTicks = PState.Started then
    some (time, v)
  else none

/-- Nullable view of a Tone.Part used to model disposal: the source's
dispose assigns null to `_events` and `_state` (source lines 545-552),
and later reads of those fields through removeAll, _forEach or cancel
dereference them without a null check.  Fields not involved in the
disposal path are omitted.  An operation returns none exactly when the
corresponding JavaScript call would throw on a null dereference. -/
structure PartObj (V : Type) where
  events? : Option (List (SEvent V))
  state? : Option (List StateRecord)
deriving DecidableEq, Repr

/-- Tone.Part.prototype.removeAll on the nullable view (source lines
336-342): `_forEach` reads `this._events.length`, which throws when
`_events` is null; otherwise every child is disposed and the list is
replaced by a fresh empty one. -/
def PartObj.removeAll (p : PartObj V) : Option (PartObj V) :=
  match p.events? with
  | none => none
  | some _ => some { p with events? := some [] }

/-- Tone.Part.prototype.dispose on the nullable view (source lines
545-552): removeAll, then `this._state.dispose()` (throws when `_state`
is null), then both `_state` and `_events` are set to null. -/
def PartObj.dispose (p : PartObj V) : Option (PartObj V) :=
  match p.removeAll with
  | none => none
  | some q =>
    match q.state? with
    | none => none
    | some _ => some { q with events? := none, state? := none }

/-- Tone.Part.prototype.cancel on the nullable view (source lines
349-355): `_forEach` reads `this._events.length` and then
`this._state.cancel` is called, each throwing on null. -/
def PartObj.cancel (p : PartObj V) (after : Int) : Option (PartObj V) :=
  match p.events?, p.state? with
  | some es, some st =>
    some { p with
           events? := some (es.map (fun e => e.cancelAfter after)),
           state? := some (cancelTL st after) }
  | _, _ => none

/-- JavaScript object passed to add or remove when the caller uses the
object form: an optional `time` field plus the rest of the object's
data. -/
structure JSObj where
  time? : Option Int
  payload : Int
deriving DecidableEq, Repr

/-- Tone.Part.prototype.add called with an object carrying a `time`
field (source lines 264-268): the object becomes the value, its time
field is read and then deleted in place on the heap, and the same
reference (not a copy) is handed to the normalized add as a raw value.
The heap maps references (list indices) to objects; none means the call
is outside the modelled input domain (no such reference, or no `time`
field, in which case the source would hand the whole object to
toTicks). -/
def Part.addObj (g : Part Nat) (now : Int) (heap : List JSObj) (r : Nat) :
    Option (List JSObj × Part Nat) :=
  match heap.get? r with
  | some o =>
    match o.time? with
    | some t =>
      let heap2 := heap.set r { o with time? := none }
      some (heap2, g.add now t (AddValue.raw r))
    | none => none
  | none => none

/-- Tone.Part.prototype.remove called with an object carrying a `time`
field (source lines 316-319): the object becomes the value and its time
field is read, but unlike add, nothing is deleted: the heap is passed
through untouched.  none marks inputs outside the modelled domain as in
Part.addObj. -/
def Part.removeObj (g : Part Nat) (heap : List JSObj) (r : Nat) :
    Option (List JSObj × (Part Nat × List (SEvent Nat))) :=
  match heap.get? r with
  | some o =>
    match o.time? with
    | some t => some (heap, g.remove t (some r))
    | none => none
  | none => none

/-- Group-level operation that leaves the child list's length intact,
used to express the temporal loop-membership claim over an arbitrary
interleaving of public calls.  Setters that may restart a child carry
the current time their JavaScript counterpart reads from the clock. -/
inductive Op (V : Type) where
  | start (t off : Int)
  | stop (t : Int)
  | cancel (after : Int)
  | setLoop (now : Int) (l : LoopSetting)
  | setLoopStart (now v : Int)
  | setLoopEnd (now v : Int)
  | setProbability (p : Rat)
  | setHumanize (h : HumVal)
  | setPlaybackRate (r : Rat)
  | setStartOffset (v : Int)
deriving DecidableEq, Repr

/-- Interpretation of an Op as the corresponding Part method. -/
def Part.applyOp (g : Part V) : Op V → Part V
  | Op.start t off => g.start t off
  | Op.stop t => g.stop t
  | Op.cancel after => g.cancel after
  | Op.setLoop now l => g.setLoop now l
  | Op.setLoopStart now v => g.setLoopStart now v
  | Op.setLoopEnd now v => g.setLoopEnd now v
  | Op.setProbability p => g.setProbability p
  | Op.setHumanize h => g.setHumanize h
  | Op.setPlaybackRate r => g.setPlaybackRate r
  | Op.setStartOffset v => g.setStartOffset v

/-- Runs a sequence of group-level operations left to right. -/
def Part.runOps (g : Part V) : List (Op V) → Part V
  | [] => g
  | op :: rest => (g.applyOp op).runOps rest

/-- Loop-membership test for the child at index i: the group is looping
and the child's offset relative to the group's startOffset lies outside
the loop window (false when no child exists at that index). -/
def Part.outsideLoopB (g : Part V) (i : Nat) : Bool :=
  g._loop.truthy &&
    (match g._events.get? i with
     | some e =>
       decide (e.startOffset - g._startOffset < g._loopStart) ||
         decide (g._loopEnd ≤ e.startOffset - g._startOffset)
     | none => false)

/-- Holds when the loop-membership condition of Part.outsideLoopB for
the child at index i is satisfied at every state the operation sequence
passes through, final state included. -/
def Part.outsideAlongB (g : Part V) (i : Nat) : List (Op V) → Bool
  | [] => g.outsideLoopB i
  | op :: rest => g.outsideLoopB i && (g.applyOp op).outsideAlongB i rest

/-- Dormancy of the child at index i: no trigger is pending with the
external clock (true when no child exists at that index). -/
def Part.dormantB (g : Part V) (i : Nat) : Bool :=
  match g._events.get? i with
  | some e => e.scheduled.isNone
  | none => true

/-! Timeline lemmas. -/

/-- Looking up the tick of a freshly inserted record finds that record:
addEvent places it after every record with an equal or smaller tick, and
getEvent returns the last record at or before the query tick. -/
theorem getEvent_addEvent_self (tl : List StateRecord) (r : StateRecord) :
    getEvent (addEvent tl r) r.time = some r := by
  induction tl with
  | nil => simp [addEvent, getEvent]
  | cons x xs ih =>
    by_cases h : x.time ≤ r.time
    · simp [addEvent, getEvent, h, ih]
    · simp [addEvent, getEvent, h, le_refl]

/-- State lookup at the tick of a freshly inserted record yields that
record's state. -/
theorem getStateAtTime_addEvent_self (tl : List StateRecord) (r : StateRecord) :
    getStateAtTime (addEvent tl r) r.time = r.state := by
  simp [getStateAtTime, getEvent_addEvent_self]

/-- Inserting a record grows the state log by exactly one record. -/
theorem length_addEvent (tl : List StateRecord) (r : StateRecord) :
    (addEvent tl r).length = tl.length + 1 := by
  induction tl with
  | nil => simp [addEvent]
  | cons x xs ih =>
    by_cases h : x.time ≤ r.time <;> simp [addEvent, h, ih]

/-- Sample group used by the closed witnesses: one child at offset 0,
one at offset 100, loop window [0, 96), empty state log. -/
def sampleA : Part Nat :=
  { _loop := LoopSetting.bool true, _loopStart := 0, _loopEnd := 96,
    _playbackRate := 1, _probability := 1, _humanize := HumVal.bool false,
    _startOffset := 0, _state := [],
    _events := [SEvent.fresh 10, { SEvent.fresh 20 with startOffset := 100 }],
    mute := false }

/-- Sample non-looping group used by the closed witnesses: sampleA with
the loop flag cleared. -/
def sampleB : Part Nat :=
  { sampleA with _loop := LoopSetting.bool false }

/-- C2: for every tick t, a second start(t) after a start(t), or a
second stop(t) after a stop(t), is ignored: it leaves the Timeline and
every child unchanged (the result is the very group the first call
returned).  When the state at t is not yet Started, start(t) appends
exactly one Timeline record and stop(t) is itself the ignored redundant
call; symmetrically when the state at t is Started, stop(t) appends
exactly one record and start(t) is ignored, returning the group
unchanged. -/
theorem c2_idempotent_start_stop (g : Part V) (t off : Int) :
    (g.start t off).start t off = g.start t off ∧
    (g.stop t).stop t = g.stop t ∧
    (getStateAtTime g._state t ≠ PState.Started →
      (g.start t off)._state.length = g._state.length + 1 ∧ g.stop t = g) ∧
    (getStateAtTime g._state t = PState.Started →
      (g.stop t)._state.length = g._state.length + 1 ∧ g.start t off = g) := by
  have start_started : ∀ (g' : Part V), getStateAtTime g'._state t = PState.Started →
      g'.start t off = g' := fun g' h => by simp [Part.start, h]
  have stop_stopped : ∀ (g' : Part V), getStateAtTime g'._state t ≠ PState.Started →
      g'.stop t = g' := fun g' h => by simp [Part.stop, h]
  by_cases hs : getStateAtTime g._state t = PState.Started
  · have hstart : g.start t off = g := start_started g hs
    have hstop1 : getStateAtTime (g.stop t)._state t = PState.Stopped := by
      simp only [Part.stop, hs, if_true]
      exact getStateAtTime_addEvent_self g._state _
    have hlen : (g.stop t)._state.length = g._state.length + 1 := by
      simp [Part.stop, hs, setStateAtTime, length_addEvent]
    refine ⟨by rw [hstart, hstart], ?_, fun hc => absurd hs hc, fun _ => ⟨hlen, hstart⟩⟩
    exact stop_stopped _ (by rw [hstop1]; exact fun hcon => PState.noConfusion hcon)
  · have hstop : g.stop t = g := stop_stopped g hs
    have hstart1 : getStateAtTime (g.start t off)._state t = PState.Started := by
      simp only [Part.start, hs, if_false]
      exact getStateAtTime_addEvent_self g._state _
    have hlen : (g.start t off)._state.length = g._state.length + 1 := by
      simp [Part.start, hs, length_addEvent]
    exact ⟨start_started _ hstart1, by rw [hstop, hstop], fun _ => ⟨hlen, hstop⟩,
      fun hc => absurd hc hs⟩

/-- Witness for C2 at the sample group: starting twice at tick 3
equals starting once, the single start appended exactly one record, and
the stop at tick 3 on the fresh (Stopped) group was ignored. -/
theorem c2_witness :
    (sampleA.start 3 0).start 3 0 = sampleA.start 3 0 ∧
    (sampleA.start 3 0)._state.length = sampleA._state.length + 1 ∧
    sampleA.stop 3 = sampleA := by
  have h := c2_idempotent_start_stop sampleA 3 0
  exact ⟨h.1, (h.2.2.1 (by decide)).1, (h.2.2.1 (by decide)).2⟩

/-- C3: the dispatch routine passes (time, value) to the user callback
exactly when mute is false and the Timeline's state at the external
clock's current tick is Started; the trigger's own scheduled tick plays
no role (the `time` argument is arbitrary here and unused by the
guard).  Consequently, after a stop, every tick at which the state log
answers Stopped silences any still-scheduled trigger, whatever tick it
was scheduled for, without that trigger being cancelled individually. -/
theorem c3_tick_dispatch (g : Part V) (tt time ts : Int) (v : V) :
    (g._tick tt time v = some (time, v) ↔
      g.mute = false ∧ getStateAtTime g._state tt = PState.Started) ∧
    (getStateAtTime (g.stop ts)._state tt = PState.Stopped →
      (g.stop ts)._tick tt time v = none) := by
  constructor
  · constructor
    · intro h
      by_cases hc : g.mute = false ∧ getStateAtTime g._state tt = PState.Started
      · exact hc
      · simp [Part._tick, hc] at h
    · intro hc
      simp [Part._tick, hc]
  · intro h
    simp [Part._tick, h]

/-- Witness for C3: on the started sample group a trigger fires with
its (time, value) pair, and after stopping at tick 6 a trigger
evaluated at tick 7 is silenced. -/
theorem c3_witness :
    (sampleA.start 0 0)._tick 5 100 7 = some (100, 7) ∧
    ((sampleA.start 0 0).stop 6)._tick 7 100 7 = none := by
  refine ⟨(c3_tick_dispatch (sampleA.start 0 0) 5 100 6 7).1.mpr (by decide),
    (c3_tick_dispatch (sampleA.start 0 0) 7 100 6 7).2 (by decide)⟩

/-- C6: when the state record governing the current time exists and is
Started, add appends the configured child already run through the
positioning algorithm with that record's tick and offset (so no further
start call is needed); when the governing record is absent or not
Started, add appends the configured child untouched.  In the
non-looping case the immediately positioned child indeed carries a
pending trigger at the recorded tick plus offset. -/
theorem c6_add_immediate_schedule (g : Part V) (now time : Int) (av : AddValue V) :
    (∀ r, getEvent g._state now = some r → r.state = PState.Started →
      (g.add now time av)._events =
        g._events ++ [g._startNote (g.makeChild time av) r.time r.offset]) ∧
    ((∀ r, getEvent g._state now = some r → r.state ≠ PState.Started) →
      (g.add now time av)._events = g._events ++ [g.makeChild time av]) ∧
    (∀ r, getEvent g._state now = some r → r.state = PState.Started →
      g._loop.truthy = false →
      ((g.add now time av)._events.getLast?).map (fun e => e.scheduled) =
        some (some (r.time + r.offset, 0))) := by
  refine ⟨?_, ?_, ?_⟩
  · intro r hr hst
    simp [Part.add, Part._restartEvent, hr, hst]
  · intro h
    cases hE : getEvent g._state now with
    | none => simp [Part.add, Part._restartEvent, hE]
    | some r => simp [Part.add, Part._restartEvent, hE, h r hE]
  · intro r hr hst hl
    simp [Part.add, Part._restartEvent, hr, hst, Part._startNote, hl, SEvent.start]

/-- Witness for C6 at a non-looping started group: the added child is
appended already positioned by the algorithm and carries a pending
trigger at tick 0 plus the recorded offset. -/
theorem c6_witness :
    ((sampleB.start 0 0).add 4 50 (AddValue.raw 30))._events =
      (sampleB.start 0 0)._events ++
        [(sampleB.start 0 0)._startNote ((sampleB.start 0 0).makeChild 50 (AddValue.raw 30)) 0 0] ∧
    (((sampleB.start 0 0).add 4 50 (AddValue.raw 30))._events.getLast?).map
        (fun e => e.scheduled) = some (some (0, 0)) := by
  have h := c6_add_immediate_schedule (sampleB.start 0 0) 4 50 (AddValue.raw 30)
  exact ⟨h.1 { time := 0, state := PState.Started, offset := 0 } (by decide) rfl,
    h.2.2 { time := 0, state := PState.Started, offset := 0 } (by decide) rfl (by decide)⟩

/-- C7 counterexample: the claim requires each assignment to shift every
child by the change in the group's startOffset.  At the sample group,
assigning 5 and then 5 again leaves the group field at 5 (change 0 for
the second assignment), yet the children move from offsets [0, 100]
past [5, 105] to [10, 110]: the setter adds the assigned value itself,
not the change. -/
theorem c7_counterexample :
    ¬ ∀ (g : Part Nat) (v : Int),
        (g.setStartOffset v)._events.map (fun e => e.startOffset) =
          g._events.map (fun e => e.startOffset + (v - g._startOffset)) := by
  intro h
  have hc := h (sampleA.setStartOffset 5) 5
  revert hc
  decide

/-- C7 amended: assigning v stores v as the group's startOffset and adds
the assigned value v (not the change from the previous value) to every
child's startOffset, so repeated assignments accumulate the assigned
values on the children while overwriting the group's own field. -/
theorem c7_start_offset_amended (g : Part V) (v w : Int) :
    (g.setStartOffset v)._startOffset = v ∧
    (g.setStartOffset v)._events.map (fun e => e.startOffset) =
      g._events.map (fun e => e.startOffset + v) ∧
    ((g.setStartOffset v).setStartOffset w)._startOffset = w ∧
    ((g.setStartOffset v).setStartOffset w)._events.map (fun e => e.startOffset) =
      g._events.map (fun e => e.startOffset + v + w) := by
  refine ⟨rfl, by simp [Part.setStartOffset], rfl, ?_⟩
  simp only [Part.setStartOffset, List.map_map]
  rfl

/-- C5 counterexample: the claim requires every listed setter, in every
state of the group, to fan the new value out to every child.  On the
non-looping sample group the loopEnd setter stores 99 in the group
field but leaves every child untouched (their loopEnd stays 0), because
the fan-out in the source is guarded by `if (this._loop)`. -/
theorem c5_counterexample :
    (sampleB.setLoopEnd 0 99)._loopEnd = 99 ∧
    (sampleB.setLoopEnd 0 99)._events = sampleB._events ∧
    sampleB._events.map (fun e => e.loopEnd) = [0, 0] ∧
    (0 : Int) ≠ 99 := by
  decide

/-- C5 amended: probability, humanize and playbackRate setters store the
value and fan it to every child unconditionally.  The loop setter
stores the value and rewrites every child (window [0, length), the new
loop value) before retesting its loop-window membership; the loopStart
and loopEnd setters store the value but fan the window length out and
retest membership only when the group is looping, leaving the children
untouched otherwise.  The retest cancels the pending trigger of a child
outside [loopStart, loopEnd) while keeping it in the event list (the
child count never changes), and runs the positioning algorithm again
for an in-window child whose state is Stopped. -/
theorem c5_property_propagation_amended (g : Part V) (now x : Int) (p r : Rat)
    (hm : HumVal) (l : LoopSetting) :
    ((g.setProbability p)._probability = p ∧
      ∀ e ∈ (g.setProbability p)._events, e.probability = p) ∧
    ((g.setHumanize hm)._humanize = hm ∧
      ∀ e ∈ (g.setHumanize hm)._events, e.humanize = hm) ∧
    ((g.setPlaybackRate r)._playbackRate = r ∧
      ∀ e ∈ (g.setPlaybackRate r)._events, e.playbackRate = r) ∧
    ((g.setLoop now l)._loop = l ∧
      (g.setLoop now l)._events =
        g._events.map (fun e =>
          ({ g with _loop := l } : Part V)._testLoopBoundries now
            (({ g with _loop := l } : Part V).loopFanChild e)) ∧
      (g.setLoop now l).length = g.length) ∧
    ((g.setLoopEnd now x)._loopEnd = x ∧
      (g._loop.truthy = false → (g.setLoopEnd now x)._events = g._events) ∧
      (g._loop.truthy = true →
        (g.setLoopEnd now x)._events =
          g._events.map (fun e =>
            ({ g with _loopEnd := x } : Part V)._testLoopBoundries now
              (({ g with _loopEnd := x } : Part V).windowFanChild e))) ∧
      (g.setLoopEnd now x).length = g.length) ∧
    ((g.setLoopStart now x)._loopStart = x ∧
      (g._loop.truthy = false → (g.setLoopStart now x)._events = g._events) ∧
      (g._loop.truthy = true →
        (g.setLoopStart now x)._events =
          g._events.map (fun e =>
            ({ g with _loopStart := x } : Part V)._testLoopBoundries now
              (({ g with _loopStart := x } : Part V).windowFanChild e))) ∧
      (g.setLoopStart now x).length = g.length) ∧
    (∀ e : SEvent V,
      ((e.startOffset - g._startOffset < g._loopStart ∨
          g._loopEnd ≤ e.startOffset - g._startOffset) →
        g._testLoopBoundries now e = e.cancel ∧
          (g._testLoopBoundries now e).scheduled = none) ∧
      (g._loopStart ≤ e.startOffset - g._startOffset →
        e.startOffset - g._startOffset < g._loopEnd →
        e.state = PState.Stopped →
        g._testLoopBoundries now e = g._restartEvent now e)) := by
  refine ⟨⟨rfl, ?_⟩, ⟨rfl, ?_⟩, ⟨rfl, ?_⟩, ⟨rfl, rfl, ?_⟩, ⟨?_, ?_, ?_, ?_⟩,
    ⟨?_, ?_, ?_, ?_⟩, ?_⟩
  · intro e he
    simp [Part.setProbability] at he
    obtain ⟨a, _, rfl⟩ := he
    rfl
  · intro e he
    simp [Part.setHumanize] at he
    obtain ⟨a, _, rfl⟩ := he
    rfl
  · intro e he
    simp [Part.setPlaybackRate] at he
    obtain ⟨a, _, rfl⟩ := he
    rfl
  · simp [Part.setLoop, Part.length]
  · by_cases h : ({ g with _loopEnd := x } : Part V)._loop.truthy = true <;>
      simp [Part.setLoopEnd, h]
  · intro h
    simp [Part.setLoopEnd, h]
  · intro h
    simp [Part.setLoopEnd, h]
  · by_cases h : ({ g with _loopEnd := x } : Part V)._loop.truthy = true <;>
      simp [Part.setLoopEnd, Part.length, h]
  · by_cases h : ({ g with _loopStart := x } : Part V)._loop.truthy = true <;>
      simp [Part.setLoopStart, h]
  · intro h
    simp [Part.setLoopStart, h]
  · intro h
    simp [Part.setLoopStart, h]
  · by_cases h : ({ g with _loopStart := x } : Part V)._loop.truthy = true <;>
      simp [Part.setLoopStart, Part.length, h]
  · intro e
    constructor
    · intro hout
      have : e.startOffset - g._startOffset < g._loopStart ∨
          g._loopEnd ≤ e.startOffset - g._startOffset := hout
      exact ⟨by simp [Part._testLoopBoundries, this], by simp [Part._testLoopBoundries, this, SEvent.cancel]⟩
    · intro h1 h2 hst
      have hnot : ¬ (e.startOffset - g._startOffset < g._loopStart ∨
          g._loopEnd ≤ e.startOffset - g._startOffset) := by
        push_neg
        exact ⟨h1, h2⟩
      simp [Part._testLoopBoundries, hnot, hst]

/-- Witness for C5 amended at the looping sample group: the probability
setter propagates to both children, the loopEnd setter on the
non-looping sample leaves the children untouched, and the retest
cancels the out-of-window child while the child count is preserved. -/
theorem c5_witness :
    (∀ e ∈ (sampleA.setProbability (1 / 2))._events, e.probability = 1 / 2) ∧
    (sampleB.setLoopEnd 0 99)._events = sampleB._events ∧
    (sampleA._testLoopBoundries 0 { SEvent.fresh 20 with startOffset := 100 }).scheduled
      = none ∧
    (sampleA.setLoop 0 (LoopSetting.bool true)).length = sampleA.length := by
  have hA := c5_property_propagation_amended sampleA 0 99 (1 / 2) 1
    (HumVal.bool false) (LoopSetting.bool true)
  have hB := c5_property_propagation_amended sampleB 0 99 (1 / 2) 1
    (HumVal.bool false) (LoopSetting.bool true)
  exact ⟨hA.1.2, hB.2.2.2.2.1.2.1 (by decide),
    ((hA.2.2.2.2.2.2 { SEvent.fresh 20 with startOffset := 100 }).1 (by decide)).2,
    hA.2.2.2.1.2.2⟩

/-- Lookup at the index right after a prefix returns the element that
follows the prefix. -/
theorem get?_append_cons {α : Type} (l1 : List α) (a : α) (l2 : List α) :
    (l1 ++ a :: l2).get? l1.length = some a := by
  induction l1 with
  | nil => rfl
  | cons x xs ih => simpa using ih

/-- Erasing at the index right after a prefix removes exactly the
element that follows the prefix. -/
theorem eraseIdx_append_cons {α : Type} (l1 : List α) (a : α) (l2 : List α) :
    (l1 ++ a :: l2).eraseIdx l1.length = l1 ++ l2 := by
  induction l1 with
  | nil => rfl
  | cons x xs ih => simp [List.eraseIdx, ih]

/-- Characterization of the reverse splice loop: started with the index
pointing past a prefix l1, it visits every element of l1 exactly once
(never an element of the already-processed suffix l2), keeps precisely
the non-matching ones in order, and disposes the matching ones in
reverse order of the list. -/
theorem spliceLoop_eq_filter (p : SEvent V → Bool) (l1 l2 : List (SEvent V)) :
    spliceLoop p (l1 ++ l2) l1.length =
      (l1.filter (fun e => !(p e)) ++ l2, (l1.filter p).reverse) := by
  induction l1 using List.reverseRecOn generalizing l2 with
  | nil => simp [spliceLoop]
  | append_singleton l1 a ih =>
    have hlen : (l1 ++ [a]).length = l1.length + 1 := by simp
    have hassoc : (l1 ++ [a]) ++ l2 = l1 ++ a :: l2 := by simp
    rw [hlen, hassoc]
    cases hpa : p a with
    | true =>
      simp only [spliceLoop, get?_append_cons, hpa, if_true, eraseIdx_append_cons, ih]
      simp [List.filter_append, hpa]
    | false =>
      have hstep : spliceLoop p (l1 ++ a :: l2) (l1.length + 1) =
          spliceLoop p (l1 ++ a :: l2) l1.length := by
        simp only [spliceLoop, get?_append_cons, hpa, Bool.false_eq_true, if_false]
      rw [hstep, show (a :: l2 : List (SEvent V)) = [a] ++ l2 from rfl, ih ([a] ++ l2)]
      simp [List.filter_append, hpa]

/-- C8: remove keeps exactly the children whose startOffset or value
fails the match (preserving their order), disposes exactly the matching
children — each visited once by the reverse iteration, in reverse list
order, despite the in-place splices — and is a no-op when no child
matches. -/
theorem c8_remove_reverse_splice [DecidableEq V] (g : Part V) (time : Int) (v? : Option V) :
    (g.remove time v?).1._events =
      g._events.filter (fun e => !(removeMatches time v? e)) ∧
    (g.remove time v?).2 = (g._events.filter (removeMatches time v?)).reverse ∧
    ((∀ e ∈ g._events, removeMatches time v? e = false) →
      (g.remove time v?).1 = g ∧ (g.remove time v?).2 = []) := by
  have key := spliceLoop_eq_filter (removeMatches time v?) g._events []
  rw [List.append_nil] at key
  refine ⟨?_, ?_, ?_⟩
  · simp [Part.remove, key]
  · simp [Part.remove, key]
  · intro hnone
    have h1 : g._events.filter (fun e => !(removeMatches time v? e)) = g._events :=
      List.filter_eq_self.mpr (by intro a ha; simp [hnone a ha])
    have h2 : g._events.filter (removeMatches time v?) = [] :=
      List.filter_eq_nil_iff.mpr (by intro a ha; simp [hnone a ha])
    constructor
    · show ({ g with _events := (spliceLoop (removeMatches time v?)
        g._events g._events.length).1 } : Part V) = g
      rw [key]
      simp [h1]
    · simp [Part.remove, key, h2]

/-- Witness for C8: removing at tick 100 keeps only the tick-0 child
and disposes the single matching one, and removing at the unused tick
55 is a no-op on the sample group. -/
theorem c8_witness :
    (sampleA.remove 100 none).1._events =
      sampleA._events.filter (fun e => !(removeMatches 100 none e)) ∧
    (sampleA.remove 55 none).1 = sampleA ∧
    (sampleA.remove 55 none).2 = [] := by
  have h100 := c8_remove_reverse_splice sampleA 100 none
  have h55 := c8_remove_reverse_splice sampleA 55 none
  exact ⟨h100.1, (h55.2.2 (by decide)).1, (h55.2.2 (by decide)).2⟩

/-- Sample one-object heap for the object-argument claims. -/
def heap0 : List JSObj :=
  [{ time? := some 100, payload := 7 }]

/-- Setting an index that exists makes a later lookup at that index
return the new element. -/
theorem get?_set_self {α : Type} (l : List α) (n : Nat) (a b : α)
    (h : l.get? n = some a) : (l.set n b).get? n = some b := by
  induction l generalizing n with
  | nil => cases h
  | cons x xs ih =>
    cases n with
    | zero => rfl
    | succ m => simpa using ih m (by simpa using h)

/-- Appending a single element makes it the last element. -/
theorem getLast?_append_singleton {α : Type} (l : List α) (a : α) :
    (l ++ [a]).getLast? = some a :=
  List.getLast?_concat l

/-- Positioning never changes which value an event carries. -/
theorem value_startNote (g : Part V) (e : SEvent V) (t off : Int) :
    (g._startNote e t off).value = e.value := by
  by_cases h1 : g._loop.truthy = true
  · by_cases h2 : g._loopStart ≤ e.startOffset - g._startOffset ∧
        e.startOffset - g._startOffset < g._loopEnd
    · simp [Part._startNote, h1, h2, SEvent.start]
    · simp [Part._startNote, h1, h2]
  · simp [Part._startNote, h1, SEvent.start]

/-- Restarting never changes which value an event carries. -/
theorem value_restartEvent (g : Part V) (now : Int) (e : SEvent V) :
    (g._restartEvent now e).value = e.value := by
  cases hE : getEvent g._state now with
  | none => simp [Part._restartEvent, hE]
  | some r =>
    by_cases h : r.state = PState.Started <;>
      simp [Part._restartEvent, hE, h, value_startNote]

/-- C9 counterexample: remove called with the object at heap0[0]
(carrying time 100) returns the heap unchanged, and the object's time
field is still present afterwards, whereas the claim says remove
mutates the caller's object in place by deleting its time field. -/
theorem c9_counterexample :
    sampleA.removeObj heap0 0 = some (heap0, sampleA.remove 100 (some 0)) ∧
    (heap0.get? 0).map (fun o => o.time?) = some (some 100) ∧
    (some (100 : Int) : Option Int) ≠ none := by
  refine ⟨rfl, rfl, by decide⟩

/-- C9 amended: remove called with an object carrying a time field
aliases that object as the value (the reference itself is used for the
value match) and reads the time from it, but does not mutate the
caller's object: unlike add, it never deletes the time field, and the
heap is passed through untouched. -/
theorem c9_remove_object_amended (g : Part Nat) (heap : List JSObj) (r : Nat)
    (o : JSObj) (t : Int) (h1 : heap.get? r = some o) (h2 : o.time? = some t) :
    g.removeObj heap r = some (heap, g.remove t (some r)) := by
  have h1g : heap[r]? = some o := by rw [← List.get?_eq_getElem?]; exact h1
  simp [Part.removeObj, h1, h1g, h2]

/-- Witness for C9 amended at the sample heap: the call resolves to a
plain remove at tick 100 with the aliased reference as value, heap
unchanged. -/
theorem c9_witness :
    sampleA.removeObj heap0 0 = some (heap0, sampleA.remove 100 (some 0)) :=
  c9_remove_object_amended sampleA heap0 0 { time? := some 100, payload := 7 } 100 rfl rfl

/-- C10: add called with an object carrying a time field deletes that
field in place on the caller's object (the heap cell at the same
reference afterwards holds the object without its time field) and
stores the same aliased reference as the new child's value, so reading
the child's value and following it into the heap observes an object
whose time field is gone. -/
theorem c10_add_object_mutation (g : Part Nat) (now : Int) (heap : List JSObj)
    (r : Nat) (o : JSObj) (t : Int)
    (h1 : heap.get? r = some o) (h2 : o.time? = some t) :
    g.addObj now heap r =
      some (heap.set r { o with time? := none }, g.add now t (AddValue.raw r)) ∧
    ∀ heap2 g2, g.addObj now heap r = some (heap2, g2) →
      heap2.get? r = some { o with time? := none } ∧
      (g2._events.getLast?).map (fun e => e.value) = some r ∧
      (heap2.get? r).map (fun o2 => o2.time?) = some none := by
  have h1g : heap[r]? = some o := by rw [← List.get?_eq_getElem?]; exact h1
  have hmain : g.addObj now heap r =
      some (heap.set r { o with time? := none }, g.add now t (AddValue.raw r)) := by
    simp [Part.addObj, h1, h1g, h2]
  refine ⟨hmain, ?_⟩
  intro heap2 g2 h
  rw [hmain] at h
  injection h with h
  injection h with hh hg
  subst hh
  subst hg
  have hset : (heap.set r { o with time? := none }).get? r =
      some { o with time? := none } := get?_set_self heap r o _ h1
  refine ⟨hset, ?_, by rw [hset]; rfl⟩
  simp [Part.add, getLast?_append_singleton, value_restartEvent, Part.makeChild, SEvent.fresh]

/-- Witness for C10 at the sample heap: the heap cell keeps the payload
but loses its time field, and the appended child's value is the
reference 0. -/
theorem c10_witness :
    sampleA.addObj 0 heap0 0 =
      some ([{ time? := none, payload := 7 }],
        sampleA.add 0 100 (AddValue.raw 0)) ∧
    ((sampleA.addObj 0 heap0 0).map (fun pr => pr.1.get? 0)) =
      some (some { time? := none, payload := 7 }) := by
  have h := c10_add_object_mutation sampleA 0 heap0 0
    { time? := some 100, payload := 7 } 100 rfl rfl
  refine ⟨h.1, ?_⟩
  rw [h.1]
  exact congrArg some ((h.2 _ _ h.1).1)

/-- Sample nullable part for the disposal claim: one child, empty state
log, both fields live. -/
def freshObj : PartObj Nat :=
  { events? := some [SEvent.fresh 10], state? := some [] }

/-- C4 evaluated at the failing input: the first dispose releases the
children and the Timeline and nulls both fields, but a second dispose
faults (none models the JavaScript TypeError raised when removeAll
reads `this._events.length` off the nulled list), as does a cancel
after dispose; cancel on a live empty group is safe.  This contradicts
the claim that double dispose detects nothing to do and does not
fault. -/
theorem c4_double_dispose_faults :
    PartObj.dispose freshObj = some { events? := none, state? := none } ∧
    (PartObj.dispose freshObj).bind PartObj.dispose = none ∧
    ((PartObj.dispose freshObj).bind (fun p => p.cancel 0)) = none ∧
    (PartObj.cancel { events? := some ([] : List (SEvent Nat)), state? := some [] } 0).isSome
      = true ∧
    (PartObj.dispose { events? := some ([] : List (SEvent Nat)), state? := some [] }).isSome
      = true := by
  decide

/-- Lookup through List.map acts on the underlying lookup. -/
theorem get?_map {α β : Type} (f : α → β) (l : List α) (n : Nat) :
    (l.map f).get? n = (l.get? n).map f := by
  induction l generalizing n with
  | nil => rfl
  | cons x xs ih =>
    cases n with
    | zero => rfl
    | succ m => simp only [List.map_cons, List.get?_cons_succ]; exact ih m

/-- Positioning never changes a child's start offset. -/
theorem startOffset_startNote (g : Part V) (e : SEvent V) (t off : Int) :
    (g._startNote e t off).startOffset = e.startOffset := by
  by_cases h1 : g._loop.truthy = true
  · by_cases h2 : g._loopStart ≤ e.startOffset - g._startOffset ∧
        e.startOffset - g._startOffset < g._loopEnd
    · simp [Part._startNote, h1, h2, SEvent.start]
    · simp [Part._startNote, h1, h2]
  · simp [Part._startNote, h1, SEvent.start]

/-- Restarting never changes a child's start offset. -/
theorem startOffset_restartEvent (g : Part V) (now : Int) (e : SEvent V) :
    (g._restartEvent now e).startOffset = e.startOffset := by
  cases hE : getEvent g._state now with
  | none => simp [Part._restartEvent, hE]
  | some r =>
    by_cases h : r.state = PState.Started <;>
      simp [Part._restartEvent, hE, h, startOffset_startNote]

/-- Retesting the loop boundaries never changes a child's start
offset. -/
theorem startOffset_testLoopBoundries (g : Part V) (now : Int) (e : SEvent V) :
    (g._testLoopBoundries now e).startOffset = e.startOffset := by
  by_cases h1 : e.startOffset - g._startOffset < g._loopStart ∨
      g._loopEnd ≤ e.startOffset - g._startOffset
  · simp [Part._testLoopBoundries, h1, SEvent.cancel]
  · by_cases h2 : e.state = PState.Stopped <;>
      simp [Part._testLoopBoundries, h1, h2, startOffset_restartEvent]

/-- Out-of-window events are skipped by the positioning algorithm when
the group is looping: no start call reaches them. -/
theorem startNote_out (g : Part V) (e : SEvent V) (t off : Int)
    (hl : g._loop.truthy = true)
    (hout : e.startOffset - g._startOffset < g._loopStart ∨
      g._loopEnd ≤ e.startOffset - g._startOffset) :
    g._startNote e t off = e := by
  have hnot : ¬ (g._loopStart ≤ e.startOffset - g._startOffset ∧
      e.startOffset - g._startOffset < g._loopEnd) := by
    rcases hout with h | h
    · exact fun hc => absurd hc.1 (not_le.mpr h)
    · exact fun hc => absurd hc.2 (not_lt.mpr h)
  simp [Part._startNote, hl, hnot]

/-- Out-of-window events are canceled by the loop-boundary retest. -/
theorem testLoopBoundries_out (g : Part V) (now : Int) (e : SEvent V)
    (hout : e.startOffset - g._startOffset < g._loopStart ∨
      g._loopEnd ≤ e.startOffset - g._startOffset) :
    g._testLoopBoundries now e = e.cancel := by
  simp [Part._testLoopBoundries, hout]

/-- Destructuring of the loop-membership test: it asserts the loop flag
is truthy, the child at the index exists and its relative offset is
outside the window. -/
theorem outsideLoopB_elim (g : Part V) (i : Nat) (h : g.outsideLoopB i = true) :
    g._loop.truthy = true ∧ ∃ e, g._events.get? i = some e ∧
      (e.startOffset - g._startOffset < g._loopStart ∨
        g._loopEnd ≤ e.startOffset - g._startOffset) := by
  unfold Part.outsideLoopB at h
  rw [Bool.and_eq_true] at h
  obtain ⟨h1, h2⟩ := h
  refine ⟨h1, ?_⟩
  cases hE : g._events.get? i with
  | none => simp only [hE] at h2; cases h2
  | some e =>
    simp only [hE] at h2
    rw [Bool.or_eq_true, decide_eq_true_eq, decide_eq_true_eq] at h2
    exact ⟨e, rfl, h2⟩

/-- Introduction rule for dormancy: it is enough that the child at the
index, if it exists, has no pending trigger. -/
theorem dormantB_of_get? (g : Part V) (i : Nat)
    (h : ∀ e, g._events.get? i = some e → e.scheduled = none) :
    g.dormantB i = true := by
  unfold Part.dormantB
  cases hE : g._events.get? i with
  | none => rfl
  | some e => simp [h e hE]

/-- Elimination rule for dormancy: the child at the index, when it
exists, has no pending trigger. -/
theorem dormantB_elim (g : Part V) (i : Nat) (h : g.dormantB i = true) :
    ∀ e, g._events.get? i = some e → e.scheduled = none := by
  intro e hE
  unfold Part.dormantB at h
  simp only [hE] at h
  simpa using h

/-- Holding the head of an invariant chain: the loop-membership
condition at the first state of the trace. -/
theorem outsideAlongB_head (g : Part V) (i : Nat) (ops : List (Op V))
    (h : g.outsideAlongB i ops = true) : g.outsideLoopB i = true := by
  cases ops with
  | nil => exact h
  | cons op rest =>
    simp only [Part.outsideAlongB, Bool.and_eq_true] at h
    exact h.1

/-- Single-step preservation of dormancy: when the loop-membership
condition holds before and after one group-level operation, a child
with no pending trigger still has none afterwards. -/
theorem dormant_step (g : Part V) (i : Nat) (op : Op V)
    (hpre : g.outsideLoopB i = true)
    (hpost : (g.applyOp op).outsideLoopB i = true)
    (hd : g.dormantB i = true) :
    (g.applyOp op).dormantB i = true := by
  obtain ⟨hl, e0, he0, hout0⟩ := outsideLoopB_elim g i hpre
  have hdn : e0.scheduled = none := dormantB_elim g i hd e0 he0
  cases op with
  | start t off =>
    by_cases hg : getStateAtTime g._state t = PState.Started
    · have hid : g.applyOp (Op.start t off) = g := by
        simp [Part.applyOp, Part.start, hg]
      rw [hid]; exact hd
    · apply dormantB_of_get?
      intro e2 hE2
      have h3 : (g._events.map (fun e => g._startNote e t off)).get? i = some e2 := by
        simpa [Part.applyOp, Part.start, hg] using hE2
      rw [get?_map, he0] at h3
      injection h3 with h3
      have h3b : g._startNote e0 t off = e2 := h3
      rw [← h3b, startNote_out g e0 t off hl hout0]
      exact hdn
  | stop t =>
    by_cases hg : getStateAtTime g._state t = PState.Started
    · apply dormantB_of_get?
      intro e2 hE2
      have h3 : (g._events.map (fun e => e.stop t)).get? i = some e2 := by
        simpa [Part.applyOp, Part.stop, hg] using hE2
      rw [get?_map, he0] at h3
      injection h3 with h3
      rw [← h3]
      rfl
    · have hid : g.applyOp (Op.stop t) = g := by
        simp [Part.applyOp, Part.stop, hg]
      rw [hid]; exact hd
  | cancel after =>
    apply dormantB_of_get?
    intro e2 hE2
    have h3 : (g._events.map (fun e => e.cancelAfter after)).get? i = some e2 := by
      simpa [Part.applyOp, Part.cancel] using hE2
    rw [get?_map, he0] at h3
    injection h3 with h3
    rw [← h3]
    simp [SEvent.cancelAfter, hdn]
  | setLoop now l =>
    apply dormantB_of_get?
    intro e2 hE2
    have h3 : (g._events.map (fun e =>
        ({ g with _loop := l } : Part V)._testLoopBoundries now
          (({ g with _loop := l } : Part V).loopFanChild e))).get? i = some e2 := by
      simpa [Part.applyOp, Part.setLoop] using hE2
    rw [get?_map, he0] at h3
    injection h3 with h3
    have hout2 : (({ g with _loop := l } : Part V).loopFanChild e0).startOffset -
          ({ g with _loop := l } : Part V)._startOffset <
          ({ g with _loop := l } : Part V)._loopStart ∨
        ({ g with _loop := l } : Part V)._loopEnd ≤
          (({ g with _loop := l } : Part V).loopFanChild e0).startOffset -
            ({ g with _loop := l } : Part V)._startOffset := by
      simpa [Part.loopFanChild] using hout0
    have h3b : ({ g with _loop := l } : Part V)._testLoopBoundries now
        (({ g with _loop := l } : Part V).loopFanChild e0) = e2 := h3
    rw [← h3b, testLoopBoundries_out _ now _ hout2]
    rfl
  | setLoopEnd now v =>
    by_cases hg : ({ g with _loopEnd := v } : Part V)._loop.truthy = true
    · obtain ⟨_, e2p, he2p, hout2p⟩ := outsideLoopB_elim _ i hpost
      apply dormantB_of_get?
      intro e2 hE2
      have h3 : (g._events.map (fun e =>
          ({ g with _loopEnd := v } : Part V)._testLoopBoundries now
            (({ g with _loopEnd := v } : Part V).windowFanChild e))).get? i = some e2 := by
        simpa [Part.applyOp, Part.setLoopEnd, hg] using hE2
      have he2p' : e2p = ({ g with _loopEnd := v } : Part V)._testLoopBoundries now
          (({ g with _loopEnd := v } : Part V).windowFanChild e0) := by
        have h4 : (g.applyOp (Op.setLoopEnd now v))._events.get? i = some e2p := he2p
        have h5 : (g._events.map (fun e =>
            ({ g with _loopEnd := v } : Part V)._testLoopBoundries now
              (({ g with _loopEnd := v } : Part V).windowFanChild e))).get? i = some e2p := by
          simpa [Part.applyOp, Part.setLoopEnd, hg] using h4
        rw [get?_map, he0] at h5
        injection h5 with h5
        exact h5.symm
      have hso : e2p.startOffset = e0.startOffset := by
        rw [he2p', startOffset_testLoopBoundries]
        rfl
      have hout2 : (({ g with _loopEnd := v } : Part V).windowFanChild e0).startOffset -
            ({ g with _loopEnd := v } : Part V)._startOffset <
            ({ g with _loopEnd := v } : Part V)._loopStart ∨
          ({ g with _loopEnd := v } : Part V)._loopEnd ≤
            (({ g with _loopEnd := v } : Part V).windowFanChild e0).startOffset -
              ({ g with _loopEnd := v } : Part V)._startOffset := by
        have := hout2p
        simp only [Part.applyOp, Part.setLoopEnd, hg, if_true] at this
        simpa [Part.windowFanChild, hso] using this
      rw [get?_map, he0] at h3
      injection h3 with h3
      have h3b : ({ g with _loopEnd := v } : Part V)._testLoopBoundries now
          (({ g with _loopEnd := v } : Part V).windowFanChild e0) = e2 := h3
      rw [← h3b, testLoopBoundries_out _ now _ hout2]
      rfl
    · have hid : (g.applyOp (Op.setLoopEnd now v))._events = g._events := by
        simp [Part.applyOp, Part.setLoopEnd, hg]
      apply dormantB_of_get?
      intro e2 hE2
      rw [hid, he0] at hE2
      injection hE2 with hE2
      rw [← hE2]
      exact hdn
  | setLoopStart now v =>
    by_cases hg : ({ g with _loopStart := v } : Part V)._loop.truthy = true
    · obtain ⟨_, e2p, he2p, hout2p⟩ := outsideLoopB_elim _ i hpost
      apply dormantB_of_get?
      intro e2 hE2
      have h3 : (g._events.map (fun e =>
          ({ g with _loopStart := v } : Part V)._testLoopBoundries now
            (({ g with _loopStart := v } : Part V).windowFanChild e))).get? i = some e2 := by
        simpa [Part.applyOp, Part.setLoopStart, hg] using hE2
      have he2p' : e2p = ({ g with _loopStart := v } : Part V)._testLoopBoundries now
          (({ g with _loopStart := v } : Part V).windowFanChild e0) := by
        have h4 : (g.applyOp (Op.setLoopStart now v))._events.get? i = some e2p := he2p
        have h5 : (g._events.map (fun e =>
            ({ g with _loopStart := v } : Part V)._testLoopBoundries now
              (({ g with _loopStart := v } : Part V).windowFanChild e))).get? i = some e2p := by
          simpa [Part.applyOp, Part.setLoopStart, hg] using h4
        rw [get?_map, he0] at h5
        injection h5 with h5
        exact h5.symm
      have hso : e2p.startOffset = e0.startOffset := by
        rw [he2p', startOffset_testLoopBoundries]
        rfl
      have hout2 : (({ g with _loopStart := v } : Part V).windowFanChild e0).startOffset -
            ({ g with _loopStart := v } : Part V)._startOffset <
            ({ g with _loopStart := v } : Part V)._loopStart ∨
          ({ g with _loopStart := v } : Part V)._loopEnd ≤
            (({ g with _loopStart := v } : Part V).windowFanChild e0).startOffset -
              ({ g with _loopStart := v } : Part V)._startOffset := by
        have := hout2p
        simp only [Part.applyOp, Part.setLoopStart, hg, if_true] at this
        simpa [Part.windowFanChild, hso] using this
      rw [get?_map, he0] at h3
      injection h3 with h3
      have h3b : ({ g with _loopStart := v } : Part V)._testLoopBoundries now
          (({ g with _loopStart := v } : Part V).windowFanChild e0) = e2 := h3
      rw [← h3b, testLoopBoundries_out _ now _ hout2]
      rfl
    · have hid : (g.applyOp (Op.setLoopStart now v))._events = g._events := by
        simp [Part.applyOp, Part.setLoopStart, hg]
      apply dormantB_of_get?
      intro e2 hE2
      rw [hid, he0] at hE2
      injection hE2 with hE2
      rw [← hE2]
      exact hdn
  | setProbability p =>
    apply dormantB_of_get?
    intro e2 hE2
    have h3 : (g._events.map (fun e => { e with probability := p })).get? i = some e2 := by
      simpa [Part.applyOp, Part.setProbability] using hE2
    rw [get?_map, he0] at h3
    injection h3 with h3
    rw [← h3]
    exact hdn
  | setHumanize hv =>
    apply dormantB_of_get?
    intro e2 hE2
    have h3 : (g._events.map (fun e => { e with humanize := hv })).get? i = some e2 := by
      simpa [Part.applyOp, Part.setHumanize] using hE2
    rw [get?_map, he0] at h3
    injection h3 with h3
    rw [← h3]
    exact hdn
  | setPlaybackRate r =>
    apply dormantB_of_get?
    intro e2 hE2
    have h3 : (g._events.map (fun e => { e with playbackRate := r })).get? i = some e2 := by
      simpa [Part.applyOp, Part.setPlaybackRate] using hE2
    rw [get?_map, he0] at h3
    injection h3 with h3
    rw [← h3]
    exact hdn
  | setStartOffset v =>
    apply dormantB_of_get?
    intro e2 hE2
    have h3 : (g._events.map (fun e => { e with startOffset := e.startOffset + v })).get? i
        = some e2 := by
      simpa [Part.applyOp, Part.setStartOffset] using hE2
    rw [get?_map, he0] at h3
    injection h3 with h3
    rw [← h3]
    exact hdn

/-- C1: when the group is looping, the positioning algorithm makes no
start call for a child whose startOffset minus the group's startOffset
lies outside [loopStart, loopEnd): the child is returned untouched.
And along any sequence of group-level operations during which that
loop-membership condition keeps holding, a dormant child (no pending
trigger with the external clock) stays dormant, so its trigger — hence
the user callback — never fires while the condition holds; only a
loop-window change that brings it back in range can schedule it
again. -/
theorem c1_loop_membership (g : Part V) (e : SEvent V) (t off : Int) (i : Nat)
    (ops : List (Op V)) :
    (g._loop.truthy = true →
      (e.startOffset - g._startOffset < g._loopStart ∨
        g._loopEnd ≤ e.startOffset - g._startOffset) →
      g._startNote e t off = e) ∧
    (g.outsideAlongB i ops = true → g.dormantB i = true →
      (g.runOps ops).dormantB i = true) := by
  refine ⟨fun hl hout => startNote_out g e t off hl hout, ?_⟩
  induction ops generalizing g with
  | nil => intro _ hd; exact hd
  | cons op rest ih =>
    intro ha hd
    simp only [Part.outsideAlongB, Bool.and_eq_true] at ha
    obtain ⟨hpre, halong⟩ := ha
    have hpost : (g.applyOp op).outsideLoopB i = true :=
      outsideAlongB_head _ _ _ halong
    exact ih (g.applyOp op) halong (dormant_step g i op hpre hpost hd)

/-- Witness for C1 at the sample group: child 1 sits at offset 100,
outside the window [0, 96); it is untouched by the positioning
algorithm and remains unscheduled across a start, a stop and a
playback-rate change. -/
theorem c1_witness :
    sampleA._startNote { SEvent.fresh 20 with startOffset := 100 } 0 0 =
      { SEvent.fresh 20 with startOffset := 100 } ∧
    (sampleA.runOps [Op.start 0 0, Op.stop 50, Op.setPlaybackRate 2]).dormantB 1
      = true := by
  have h := c1_loop_membership sampleA { SEvent.fresh 20 with startOffset := 100 } 0 0 1
    [Op.start 0 0, Op.stop 50, Op.setPlaybackRate 2]
  exact ⟨h.1 (by decide) (by decide), h.2 (by decide) (by decide)⟩

end Tone
